import Mathlib

/-!
# Shallow embedding of the `gh-skill` GitHub client (`src/client.ts`)

This development models the owner-resolution, pagination and item-normalization
logic of `GitHubClient` in `src/client.ts`.  The GraphQL transport is treated as
a black box: each operation is modelled as a pure function of the sequence of
transport responses it would consume, where a response is either a decoded JSON
value or a raised `TransportError`.  JavaScript truthiness on optional strings
and JavaScript `parseInt` semantics are modelled explicitly.
-/

namespace GhSkill

/-- A structured GraphQL error entry (`e.type` discriminator), as inspected by
`error.errors?.some(e => e.type === 'NOT_FOUND')`. -/
structure GError where
  type : Option String
deriving Repr, DecidableEq

/-- A transport error raised by the GraphQL client: a message plus the optional
structured error list (`error.errors`). -/
structure TransportError where
  message : String
  errors : Option (List GError)
deriving Repr, DecidableEq

/-- JavaScript truthiness of an optional string: `undefined`/`null` and the
empty string are falsy, any other string is truthy. -/
def jsTruthy : Option String → Bool
  | none => false
  | some s => s != ""

/-- JavaScript `x || d` for an optional string `x` and a string default `d`:
returns `d` exactly when `x` is absent or the empty string. -/
def jsOrStr (x : Option String) (d : String) : String :=
  match x with
  | none => d
  | some s => if s = "" then d else s

/-- JavaScript `parseInt(s, 10)`: skip leading whitespace, read an optional
sign, then the longest prefix of decimal digits; `none` models `NaN` (no
digits). -/
def parseIntJS (s : String) : Option Int :=
  let cs := s.data.dropWhile Char.isWhitespace
  let signed : Int × List Char :=
    match cs with
    | '-' :: rest => (-1, rest)
    | '+' :: rest => (1, rest)
    | _ => (1, cs)
  let ds := signed.2.takeWhile Char.isDigit
  if ds.isEmpty then none
  else some (signed.1 * (ds.foldl (fun a c => a * 10 + (c.toNat - 48)) 0 : Nat))

/-- A project record (`GitHubProject` in `types.ts`). -/
structure GitHubProject where
  id : String
  number : Int
  title : String
  url : String
  shortDescription : Option String
deriving Repr, DecidableEq

/-- The identifier argument of `resolveProject`: `string | number`. -/
inductive Ident where
  | num (n : Int)
  | str (s : String)
deriving Repr, DecidableEq

/-- Which lookup path `resolveProject` takes for an identifier. -/
inductive ResolveRoute where
  | byNumber (n : Int)
  | byTitle (s : String)
deriving Repr, DecidableEq

/-- The dispatch of `resolveProject`:
`const num = typeof identifier === 'number' ? identifier : parseInt(identifier, 10);
 if (!isNaN(num)) return this.getProject(owner, num);` otherwise title search. -/
def resolveRoute (identifier : Ident) : ResolveRoute :=
  match identifier with
  | .num n => .byNumber n
  | .str s =>
    match parseIntJS s with
    | some n => .byNumber n
    | none => .byTitle s

/-- JavaScript `s.toLowerCase().trim()`: lowercase every character, then drop
whitespace from both ends. -/
def lowerTrim (s : String) : String :=
  let lowered := s.data.map Char.toLower
  String.mk (((lowered.dropWhile Char.isWhitespace).reverse.dropWhile
    Char.isWhitespace).reverse)

/-- The title comparison of `resolveProject`'s search branch:
`p.title.toLowerCase().trim() === String(identifier).toLowerCase().trim()`. -/
def titleMatches (title searchIdent : String) : Bool :=
  lowerTrim title == lowerTrim searchIdent

/-- `resolveProject(owner, identifier)`, with the by-number lookup (`getProject`)
abstracted as `gp` and the fully paginated project listing (`getProjects`)
abstracted as its result list `projects`:
numeric path delegates to `gp`; otherwise
`projects.find(p => p.title.toLowerCase().trim() === searchTitle) || null`. -/
def resolveProject (gp : Int → Option GitHubProject) (projects : List GitHubProject)
    (identifier : Ident) : Option GitHubProject :=
  match resolveRoute identifier with
  | .byNumber n => gp n
  | .byTitle s => projects.find? (fun p => titleMatches p.title s)

/-- One page of a GraphQL connection: `{ pageInfo: {hasNextPage, endCursor}, nodes }`. -/
structure Page (α : Type) where
  nodes : List α
  hasNextPage : Bool
  endCursor : Option String
deriving Repr, DecidableEq

/-- The transport outcome of one paginated query: a decoded connection (or
`none` when the owner/root object was null) or a raised transport error. -/
abbrev PageResponse (α : Type) := Except TransportError (Option (Page α))

/-- Outcome of the unbounded `do { ... } while (after)` collection loop used by
`getProjects`, `getRepositories`, `getProjectColumns` and `getProjectItems`:
the nodes pushed into the caller's accumulator array before the loop returned
or raised, the raised error if any, and the number of queries executed. -/
structure LoopResult (α : Type) where
  acc : List α
  err : Option TransportError
  queries : Nat
deriving Repr, DecidableEq

/-- The unbounded collection loop: execute the query, push `page?.nodes`, set
`after = page?.pageInfo?.hasNextPage ? page.pageInfo.endCursor : null`, repeat
while `after` is truthy.  `responses` is the sequence of transport responses
the loop would consume, one per executed query. -/
def collectLoop {α : Type} : List (PageResponse α) → List α → LoopResult α
  | [], acc => ⟨acc, none, 0⟩
  | .error e :: _, acc => ⟨acc, some e, 1⟩
  | .ok pageOpt :: rest, acc =>
    let acc2 := acc ++ (match pageOpt with | some pg => pg.nodes | none => [])
    let after : Option String :=
      match pageOpt with
      | some pg => if pg.hasNextPage then pg.endCursor else none
      | none => none
    if jsTruthy after then
      let r := collectLoop rest acc2
      ⟨r.acc, r.err, r.queries + 1⟩
    else ⟨acc2, none, 1⟩

/-- `getProjects(owner)`: the organization-scope pagination loop runs inside a
`try`/`catch` that logs and swallows any raised error while keeping the nodes
already pushed into the caller-scoped `projects` array; the user-scope loop
runs only `if (projects.length === 0)` and is equally swallowed.  Returns the
final `projects` array and whether the user scope was consulted. -/
def getProjects (orgResponses userResponses : List (PageResponse GitHubProject)) :
    List GitHubProject × Bool :=
  let org := collectLoop orgResponses []
  if org.acc.isEmpty then
    let user := collectLoop userResponses org.acc
    (user.acc, true)
  else (org.acc, false)

/-- A repository node as selected by `getRepositories`. -/
structure Repo where
  name : String
  nameWithOwner : String
  id : String
deriving Repr, DecidableEq

/-- `getRepositories(owner)`: the organization-scope loop accumulates into a
`repos` array local to its `try` block and returns it only when it is
non-empty; on a raised error or an empty result it falls through to the
user-scope loop, whose own raised errors are caught and turned into `[]`.
Returns the outcome and whether the user scope was consulted. -/
def getRepositories (orgResponses userResponses : List (PageResponse Repo)) :
    Except TransportError (List Repo) × Bool :=
  let org := collectLoop orgResponses []
  if org.err = none ∧ 0 < org.acc.length then (.ok org.acc, false)
  else
    let user := collectLoop userResponses []
    match user.err with
    | none => (.ok user.acc, true)
    | some _ => (.ok [], true)

/-- The user-scope half of `getProject`: `return result.user?.projectV2 || null`
inside a `try`/`catch` whose handler logs non-NOT_FOUND errors and
`return null`. -/
def userScopeResult (userAttempt : Except TransportError (Option GitHubProject)) :
    Except TransportError (Option GitHubProject) :=
  match userAttempt with
  | .ok r => .ok r
  | .error _ => .ok none

/-- `getProject(owner, number)`: try the organization scope; if it yields a
project, return it; otherwise (null result or caught error) run the user-scope
attempt.  Returns the outcome and whether the user scope was consulted. -/
def getProject (orgAttempt userAttempt : Except TransportError (Option GitHubProject)) :
    Except TransportError (Option GitHubProject) × Bool :=
  match orgAttempt with
  | .ok (some p) => (.ok (some p), false)
  | _ => (userScopeResult userAttempt, true)

/-- `typeof options.limit === 'number' ? Math.max(1, options.limit) : 50`. -/
def normLimit : Option Int → Nat
  | some n => (max 1 n).toNat
  | none => 50

/-- The bounded collection loop of `listIssues`:
`while (results.length < limit)` execute the query, push each node (normalized
by `f`) breaking once `results.length >= limit`, then recompute `after` and
`if (!after) break`.  Raised errors propagate (no `try`/`catch`).  Returns the
outcome and the number of queries executed. -/
def boundedLoop {ρ α : Type} (f : ρ → α) :
    List (PageResponse ρ) → List α → Nat → Except TransportError (List α) × Nat
  | [], acc, _ => (.ok acc, 0)
  | r :: rest, acc, limit =>
    if acc.length < limit then
      match r with
      | .error e => (.error e, 1)
      | .ok pageOpt =>
        let nodes := match pageOpt with | some pg => pg.nodes | none => []
        let acc2 := acc ++ (nodes.take (limit - acc.length)).map f
        let after : Option String :=
          match pageOpt with
          | some pg => if pg.hasNextPage then pg.endCursor else none
          | none => none
        if jsTruthy after then
          let res := boundedLoop f rest acc2 limit
          (res.1, res.2 + 1)
        else (.ok acc2, 1)
    else (.ok acc, 0)

/-- The `node` object returned per query by `listIssueComments`: a `__typename`
plus the `comments` connection. -/
structure CommentsNode (ρ : Type) where
  typename : String
  comments : Option (Page ρ)
deriving Repr, DecidableEq

/-- The bounded collection loop of `listIssueComments`: like `boundedLoop`, but
each response carries a `node` object, and
`if (!node || node.__typename !== 'Issue') return []` aborts with an empty
result. -/
def commentsLoop {ρ α : Type} (f : ρ → α) :
    List (Except TransportError (Option (CommentsNode ρ))) → List α → Nat →
      Except TransportError (List α) × Nat
  | [], acc, _ => (.ok acc, 0)
  | r :: rest, acc, limit =>
    if acc.length < limit then
      match r with
      | .error e => (.error e, 1)
      | .ok none => (.ok [], 1)
      | .ok (some node) =>
        if node.typename ≠ "Issue" then (.ok [], 1)
        else
          let nodes := match node.comments with | some c => c.nodes | none => []
          let acc2 := acc ++ (nodes.take (limit - acc.length)).map f
          let after : Option String :=
            match node.comments with
            | some c => if c.hasNextPage then c.endCursor else none
            | none => none
          if jsTruthy after then
            let res := commentsLoop f rest acc2 limit
            (res.1, res.2 + 1)
          else (.ok acc2, 1)
    else (.ok acc, 0)

/-- An `author { login }` object. -/
structure RawAuthor where
  login : String
deriving Repr, DecidableEq

/-- JavaScript `x || null` for an optional string: absent or empty becomes
`null`. -/
def jsOrNull (x : Option String) : Option String :=
  match x with
  | some s => if s = "" then none else some s
  | none => none

/-- A raw issue node as selected by `listIssues`. -/
structure RawIssueNode where
  id : String
  number : Int
  title : String
  state : String
  url : String
  createdAt : String
  updatedAt : String
  author : Option RawAuthor
deriving Repr, DecidableEq

/-- The flat record pushed by `listIssues` (`GitHubIssueListItem` in
`types.ts`); `author` is `node.author?.login || null`. -/
structure GitHubIssueListItem where
  id : String
  number : Int
  title : String
  state : String
  url : String
  createdAt : String
  updatedAt : String
  author : Option String
deriving Repr, DecidableEq

/-- The per-node record construction in `listIssues`. -/
def normIssueNode (n : RawIssueNode) : GitHubIssueListItem :=
  ⟨n.id, n.number, n.title, n.state, n.url, n.createdAt, n.updatedAt,
    jsOrNull (n.author.map (·.login))⟩

/-- A raw comment node as selected by `listIssueComments`. -/
structure RawCommentNode where
  id : String
  url : String
  body : String
  createdAt : String
  updatedAt : String
  author : Option RawAuthor
deriving Repr, DecidableEq

/-- The flat record pushed by `listIssueComments` (`GitHubIssueComment`). -/
structure GitHubIssueComment where
  id : String
  url : String
  body : String
  createdAt : String
  updatedAt : String
  author : Option String
deriving Repr, DecidableEq

/-- The per-node record construction in `listIssueComments`. -/
def normCommentNode (c : RawCommentNode) : GitHubIssueComment :=
  ⟨c.id, c.url, c.body, c.createdAt, c.updatedAt, jsOrNull (c.author.map (·.login))⟩

/-- `listIssues(owner, repo, options)` viewed from its transport interactions:
the bounded loop over the responses it would consume. -/
def listIssues (responses : List (PageResponse RawIssueNode)) (limit : Option Int) :
    Except TransportError (List GitHubIssueListItem) × Nat :=
  boundedLoop normIssueNode responses [] (normLimit limit)

/-- `listIssueComments(issueId, options)` viewed from its transport
interactions. -/
def listIssueComments
    (responses : List (Except TransportError (Option (CommentsNode RawCommentNode))))
    (limit : Option Int) : Except TransportError (List GitHubIssueComment) × Nat :=
  commentsLoop normCommentNode responses [] (normLimit limit)

/-- A field-value node as selected by the item queries.  Nodes that are not a
`ProjectV2ItemFieldSingleSelectValue` decode as empty objects, so both the
option `name` and `field?.name` are optional. -/
structure RawFieldValue where
  name : Option String
  fieldName : Option String
deriving Repr, DecidableEq

/-- The status lookup shared by `getProjectItems`, `getProjectItem` and
`listProjectIssues`:
`fieldValues.nodes.find(fv => fv.field?.name === statusFieldName)` followed by
`statusValue?.name`. -/
def statusOf (fieldValues : List RawFieldValue) (statusFieldName : String) :
    Option String :=
  (fieldValues.find? (fun fv => fv.fieldName == some statusFieldName)).bind (·.name)

/-- The raw `content` union member: `__typename` plus whichever of the
fragment fields the variant carries (a `DraftIssue` has only `id` and
`title`). -/
structure RawContent where
  typename : String
  id : Option String
  number : Option Int
  title : Option String
  url : Option String
  repoNameWithOwner : Option String
deriving Repr, DecidableEq

/-- A raw item node of `ProjectV2.items` as selected by `getProjectItems`;
`content` is absent when the caller cannot see the underlying issue/PR. -/
structure RawItemNode where
  id : Option String
  content : Option RawContent
  fieldValues : List RawFieldValue
deriving Repr, DecidableEq

/-- The `content` sub-record built by `getProjectItems`
(`id: node.content?.id` has no default). -/
structure ItemsContent where
  id : Option String
  number : Int
  title : String
  url : String
  repository : String
deriving Repr, DecidableEq

/-- The flat record built by `getProjectItems` (`GitHubProjectItem`). -/
structure GitHubProjectItem where
  id : Option String
  type : Option String
  content : ItemsContent
  status : Option String
deriving Repr, DecidableEq

/-- The per-node mapping of `getProjectItems`: placeholders
`'No Title'`, `''`, `'N/A'` and `0` fill missing content fields; `type` is
`node.content?.__typename`. -/
def normalizeItemsNode (node : RawItemNode) (statusFieldName : String) :
    GitHubProjectItem :=
  { id := node.id
    type := node.content.map (·.typename)
    content :=
      { id := node.content.bind (·.id)
        number := (node.content.bind (·.number)).getD 0
        title := jsOrStr (node.content.bind (·.title)) "No Title"
        url := jsOrStr (node.content.bind (·.url)) ""
        repository := jsOrStr (node.content.bind (·.repoNameWithOwner)) "N/A" }
    status := statusOf node.fieldValues statusFieldName }

/-- `getProjectItems(projectId, statusFieldName)`: unbounded pagination with no
`try`/`catch` (raised errors propagate), then
`.map(normalize).filter(item => item.id)`. -/
def getProjectItems (responses : List (PageResponse RawItemNode))
    (statusFieldName : String) : Except TransportError (List GitHubProjectItem) :=
  let loop := collectLoop responses []
  match loop.err with
  | some e => .error e
  | none =>
    .ok ((loop.acc.map (fun n => normalizeItemsNode n statusFieldName)).filter
      (fun item => jsTruthy item.id))

/-- The `project { id title number }` back-reference of a `ProjectV2Item`. -/
structure ProjectRef where
  id : String
  title : String
  number : Int
deriving Repr, DecidableEq

/-- The raw node fetched by `getProjectItem` once `__typename` matched
`ProjectV2Item`. -/
structure RawDetailsNode where
  typename : String
  id : String
  isArchived : Option Bool
  project : Option ProjectRef
  content : Option RawContent
  fieldValues : List RawFieldValue
deriving Repr, DecidableEq

/-- The `content` sub-record built by `getProjectItem`
(`__typename: contentTypename || null`, `id: node.content?.id || ''`). -/
structure DetailsContent where
  typename : Option String
  id : String
  number : Int
  title : String
  url : String
  repository : String
deriving Repr, DecidableEq

/-- The record returned by `getProjectItem` (`GitHubProjectItemDetails`). -/
structure GitHubProjectItemDetails where
  id : String
  isArchived : Bool
  project : Option ProjectRef
  content : DetailsContent
  status : Option String
deriving Repr, DecidableEq

/-- The normalization of `getProjectItem`: the title placeholder is
`node.content?.title || (contentTypename ? 'No Title' : 'REDACTED')`, so a
blank title with content present and an entirely absent content are
distinguished. -/
def normalizeDetailsNode (node : RawDetailsNode) (statusFieldName : String) :
    GitHubProjectItemDetails :=
  let contentTypename := node.content.map (·.typename)
  { id := node.id
    isArchived := node.isArchived.getD false
    project := node.project
    content :=
      { typename := jsOrNull contentTypename
        id := jsOrStr (node.content.bind (·.id)) ""
        number := (node.content.bind (·.number)).getD 0
        title := jsOrStr (node.content.bind (·.title))
          (if jsTruthy contentTypename then "No Title" else "REDACTED")
        url := jsOrStr (node.content.bind (·.url)) ""
        repository := jsOrStr (node.content.bind (·.repoNameWithOwner)) "N/A" }
    status := statusOf node.fieldValues statusFieldName }

/-- `getProjectItem(itemId, statusFieldName)`:
`if (!node || node.__typename !== 'ProjectV2Item') return null`, otherwise the
normalized record. -/
def getProjectItem (resp : Except TransportError (Option RawDetailsNode))
    (statusFieldName : String) :
    Except TransportError (Option GitHubProjectItemDetails) :=
  match resp with
  | .error e => .error e
  | .ok none => .ok none
  | .ok (some node) =>
    if node.typename = "ProjectV2Item" then
      .ok (some (normalizeDetailsNode node statusFieldName))
    else .ok none

/-- One `projectItems` node carried by a search-result issue:
`{ id, project { id }, fieldValues }`. -/
structure RawProjectItemLink where
  id : String
  projectId : Option String
  fieldValues : List RawFieldValue
deriving Repr, DecidableEq

/-- A raw search-result issue node as selected by `listProjectIssues`. -/
structure RawSearchIssue where
  id : String
  number : Int
  title : String
  state : String
  url : String
  createdAt : String
  updatedAt : String
  author : Option RawAuthor
  repoNameWithOwner : String
  projectItems : List RawProjectItemLink
deriving Repr, DecidableEq

/-- A node of the `search(type: ISSUE, ...)` connection: an `Issue` node, or
anything else (a null node or another `__typename`, skipped by
`if (node?.__typename !== 'Issue') continue`). -/
inductive SearchNode where
  | issue (iss : RawSearchIssue)
  | other (typename : Option String)
deriving Repr, DecidableEq

/-- The record pushed by `listProjectIssues` (`GitHubProjectIssueItem`). -/
structure GitHubProjectIssueItem where
  issue : GitHubIssueListItem
  projectItemId : String
  status : Option String
deriving Repr, DecidableEq

/-- The `issue` sub-record pushed by `listProjectIssues`. -/
def normSearchIssue (n : RawSearchIssue) : GitHubIssueListItem :=
  ⟨n.id, n.number, n.title, n.state, n.url, n.createdAt, n.updatedAt,
    jsOrNull (n.author.map (·.login))⟩

/-- The record pushed by `listProjectIssues` for a search issue and its
matching project-item link. -/
def mkProjectIssueItem (iss : RawSearchIssue) (link : RawProjectItemLink)
    (statusFieldName : String) : GitHubProjectIssueItem :=
  ⟨normSearchIssue iss, link.id, statusOf link.fieldValues statusFieldName⟩

/-- The `for (const node of nodes)` body of `listProjectIssues`: skip non-Issue
nodes, skip issues with no `projectItems` entry whose `project?.id` equals the
target `projectId`, push the rest, breaking once the limit is reached. -/
def searchPushNodes (projectId statusFieldName : String) :
    List SearchNode → List GitHubProjectIssueItem → Nat → List GitHubProjectIssueItem
  | [], acc, _ => acc
  | node :: rest, acc, limit =>
    match node with
    | .other _ => searchPushNodes projectId statusFieldName rest acc limit
    | .issue iss =>
      match iss.projectItems.find? (fun link => link.projectId == some projectId) with
      | none => searchPushNodes projectId statusFieldName rest acc limit
      | some link =>
        let acc2 := acc ++ [mkProjectIssueItem iss link statusFieldName]
        if limit ≤ acc2.length then acc2
        else searchPushNodes projectId statusFieldName rest acc2 limit

/-- The bounded search loop of `listProjectIssues` over the `search`
connection (raised errors propagate). -/
def listProjectIssuesLoop (projectId statusFieldName : String) :
    List (PageResponse SearchNode) → List GitHubProjectIssueItem → Nat →
      Except TransportError (List GitHubProjectIssueItem) × Nat
  | [], acc, _ => (.ok acc, 0)
  | r :: rest, acc, limit =>
    if acc.length < limit then
      match r with
      | .error e => (.error e, 1)
      | .ok connOpt =>
        let nodes := match connOpt with | some c => c.nodes | none => []
        let acc2 := searchPushNodes projectId statusFieldName nodes acc limit
        let after : Option String :=
          match connOpt with
          | some c => if c.hasNextPage then c.endCursor else none
          | none => none
        if jsTruthy after then
          let res := listProjectIssuesLoop projectId statusFieldName rest acc2 limit
          (res.1, res.2 + 1)
        else (.ok acc2, 1)
    else (.ok acc, 0)

/-- `listProjectIssues(owner, projectId, statusFieldName, options)` viewed from
its transport interactions. -/
def listProjectIssues (projectId statusFieldName : String)
    (responses : List (PageResponse SearchNode)) (limit : Option Int) :
    Except TransportError (List GitHubProjectIssueItem) × Nat :=
  listProjectIssuesLoop projectId statusFieldName responses [] (normLimit limit)

/-- Build the response stream for a given page sequence: every page but the
last reports `hasNextPage` with a cursor, the last reports exhaustion. -/
def pagesToResponses {ρ : Type} : List (List ρ) → List (PageResponse ρ)
  | [] => []
  | [last] => [.ok (some ⟨last, false, none⟩)]
  | pg :: rest => .ok (some ⟨pg, true, some "cursor"⟩) :: pagesToResponses rest

/-- The page on which the running count of collected nodes first reaches `n`
(the number of queries a bounded collector needs). -/
def pagesToReach {ρ : Type} : List (List ρ) → Nat → Nat
  | [], _ => 0
  | pg :: rest, n => if n ≤ pg.length then 1 else 1 + pagesToReach rest (n - pg.length)

/-- Wrap a page response as the Issue-typed `node` object consumed by
`listIssueComments`. -/
def asIssueNode {ρ : Type} : PageResponse ρ → Except TransportError (Option (CommentsNode ρ))
  | .error e => .error e
  | .ok pg => .ok (some ⟨"Issue", pg⟩)

/-- A sample raw issue node for concrete evaluations. -/
def wIss (n : Int) : RawIssueNode :=
  ⟨s!"I{n}", n, "t", "OPEN", "u", "c1", "c2", none⟩

/-- A sample project-item link to a different project. -/
def wLinkOther : RawProjectItemLink := ⟨"LA", some "OTHER", []⟩

/-- A sample project-item link to the target project `"PID"`. -/
def wLinkPid : RawProjectItemLink := ⟨"LB", some "PID", [⟨some "Done", some "Status"⟩]⟩

/-- A sample search issue linked only to another project. -/
def wIssA : RawSearchIssue := ⟨"A", 1, "a", "OPEN", "u", "c1", "c2", none, "o/r", [wLinkOther]⟩

/-- A sample search issue linked to the target project. -/
def wIssB : RawSearchIssue := ⟨"B", 2, "b", "OPEN", "u", "c1", "c2", none, "o/r", [wLinkPid]⟩

/-- A sample one-page search response with a non-Issue node,
an unlinked issue and a linked issue. -/
def wSearchResponses : List (PageResponse SearchNode) :=
  [.ok (some ⟨[.other (some "PullRequest"), .issue wIssA, .issue wIssB], false, none⟩)]

/-- The per-node decision of `listProjectIssues`: the record the loop would
push for a search node, or `none` when the node is skipped (a non-Issue node,
or an issue with no link to the target project). -/
def searchRecord? (projectId statusFieldName : String) :
    SearchNode → Option GitHubProjectIssueItem
  | .issue iss =>
    (iss.projectItems.find? (fun link => link.projectId == some projectId)).map
      (fun link => mkProjectIssueItem iss link statusFieldName)
  | .other _ => none

/-- A sample search issue linked to the target project `"PID"`, for concrete
evaluations of the bounded search loop. -/
def wSIss (n : Int) : RawSearchIssue :=
  ⟨s!"S{n}", n, "t", "OPEN", "u", "c1", "c2", none, "o/r",
    [⟨s!"L{n}", some "PID", []⟩]⟩

/-- Three sample search pages of two linked issues each. -/
def wSPages : List (List SearchNode) :=
  [[.issue (wSIss 1), .issue (wSIss 2)], [.issue (wSIss 3), .issue (wSIss 4)],
   [.issue (wSIss 5), .issue (wSIss 6)]]

/-- `List.find?` returns the head of the first satisfying split. -/
theorem find?_first_of_split {α : Type} (p : α → Bool) (l₁ : List α) (x : α)
    (l₂ : List α) (hx : p x = true) (h₁ : ∀ q ∈ l₁, p q = false) :
    (l₁ ++ x :: l₂).find? p = some x := by
  induction l₁ with
  | nil => simp [List.find?, hx]
  | cons q rest ih =>
    have hq := h₁ q (by simp)
    simp only [List.cons_append, List.find?, hq]
    exact ih (fun r hr => h₁ r (by simp [hr]))

/-- C9: `resolveProject(owner, "42")` and `resolveProject(owner, 42)` are
equivalent, both delegating to the by-number project lookup; neither takes the
title-search route. -/
theorem resolveProject_numeric_equiv (gp : Int → Option GitHubProject)
    (projects : List GitHubProject) :
    resolveProject gp projects (.str "42") = gp 42 ∧
    resolveProject gp projects (.num 42) = gp 42 ∧
    resolveRoute (.str "42") = .byNumber 42 ∧
    resolveRoute (.num 42) = .byNumber 42 :=
  ⟨rfl, rfl, rfl, rfl⟩

/-- C10: a string identifier whose leading characters parse as a base-10
integer (`parseInt` semantics) routes `resolveProject` to the by-number lookup
with that integer and never to the title search. -/
theorem resolveProject_leading_digits (s : String) (n : Int)
    (h : parseIntJS s = some n) (gp : Int → Option GitHubProject)
    (projects : List GitHubProject) :
    resolveProject gp projects (.str s) = gp n ∧
    resolveRoute (.str s) = .byNumber n := by
  constructor
  · simp [resolveProject, resolveRoute, h]
  · simp [resolveRoute, h]

/-- Witness for C10 at the identifier `"42abc"`: it parses to 42 and resolves
by number, so a project titled `"42abc"` is never found by title. -/
theorem resolveProject_leading_digits_witness :
    parseIntJS "42abc" = some 42 ∧
    resolveProject (fun _ => none) [⟨"PID", 7, "42abc", "u", none⟩] (.str "42abc")
      = (fun _ => (none : Option GitHubProject)) 42 ∧
    resolveRoute (.str "42abc") = .byNumber 42 := by
  refine ⟨by decide, ?_⟩
  exact resolveProject_leading_digits "42abc" 42 (by decide) _ _

/-- C6: for a non-numeric identifier, `resolveProject` returns the first
project in list order whose title equals the identifier after lowercasing and
trimming both sides; with no such title it returns `none`; any returned
project's title is exactly equal (never a mere extension) under that
normalization. -/
theorem resolveProject_title_search (s : String) (hs : parseIntJS s = none)
    (gp : Int → Option GitHubProject) (projects : List GitHubProject) :
    (∀ l₁ p l₂, projects = l₁ ++ p :: l₂ → titleMatches p.title s = true →
       (∀ q ∈ l₁, titleMatches q.title s = false) →
       resolveProject gp projects (.str s) = some p) ∧
    ((∀ p ∈ projects, titleMatches p.title s = false) →
       resolveProject gp projects (.str s) = none) ∧
    (∀ p, resolveProject gp projects (.str s) = some p →
       p ∈ projects ∧ lowerTrim p.title = lowerTrim s) := by
  have hres : resolveProject gp projects (.str s)
      = projects.find? (fun p => titleMatches p.title s) := by
    simp [resolveProject, resolveRoute, hs]
  refine ⟨?_, ?_, ?_⟩
  · intro l₁ p l₂ hsplit hp hl₁
    rw [hres, hsplit]
    exact find?_first_of_split _ l₁ p l₂ hp hl₁
  · intro hnone
    rw [hres, List.find?_eq_none]
    intro p hp
    simp [hnone p hp]
  · intro p hp
    rw [hres] at hp
    refine ⟨List.mem_of_find?_eq_some hp, ?_⟩
    have := List.find?_some hp
    simpa [titleMatches] using this

/-- Witness for C6: identifier `"Roadmap"` skips the project titled
`"Roadmap V2"` and matches the later project titled `" roadmap "`. -/
theorem resolveProject_title_search_witness :
    parseIntJS "Roadmap" = none ∧
    resolveProject (fun _ => none)
      [⟨"ID2", 2, "Roadmap V2", "u2", none⟩, ⟨"ID1", 1, " roadmap ", "u1", none⟩]
      (.str "Roadmap") = some ⟨"ID1", 1, " roadmap ", "u1", none⟩ := by
  refine ⟨by decide, ?_⟩
  exact (resolveProject_title_search "Roadmap" (by decide) _ _).1
    [⟨"ID2", 2, "Roadmap V2", "u2", none⟩] _ [] rfl (by decide) (by decide)

/-- C1 counterexample: a transport error raised during the final user-scope
attempt does not propagate: `getProject` returns `null` and `getRepositories`
returns `[]`, unequal to the propagated error the claim demands. -/
theorem final_error_propagation_counterexample :
    (getProject (.ok none) (.error ⟨"boom", some [⟨some "INTERNAL"⟩]⟩)).1 = .ok none ∧
    (getRepositories [.ok none] [.error ⟨"boom", some [⟨some "INTERNAL"⟩]⟩]).1 = .ok [] ∧
    (Except.ok none : Except TransportError (Option GitHubProject)) ≠
      .error ⟨"boom", some [⟨some "INTERNAL"⟩]⟩ ∧
    (Except.ok [] : Except TransportError (List Repo)) ≠
      .error ⟨"boom", some [⟨some "INTERNAL"⟩]⟩ :=
  ⟨rfl, rfl, by simp, by simp⟩

/-- C1 amended: a transport error raised during the final (user-scope) attempt
is caught, never propagated: whenever control reaches the user scope and that
attempt raises, `getProject` returns `null` and `getRepositories` returns the
empty list. -/
theorem final_attempt_error_swallowed (e : TransportError)
    (orgAttempt : Except TransportError (Option GitHubProject))
    (h : ∀ p, orgAttempt ≠ .ok (some p))
    (orgR userR : List (PageResponse Repo))
    (horg : ¬((collectLoop orgR ([] : List Repo)).err = none ∧
              0 < (collectLoop orgR ([] : List Repo)).acc.length))
    (huser : (collectLoop userR ([] : List Repo)).err.isSome) :
    (getProject orgAttempt (.error e)).1 = .ok none ∧
    (getRepositories orgR userR).1 = .ok [] := by
  constructor
  · cases orgAttempt with
    | error e2 => rfl
    | ok v =>
      cases v with
      | none => rfl
      | some p => exact absurd rfl (h p)
  · simp only [getRepositories]
    rw [if_neg horg]
    obtain ⟨e2, he⟩ := Option.isSome_iff_exists.mp huser
    simp [he]

/-- Witness for the amended C1 at concrete erroring user-scope attempts. -/
theorem final_attempt_error_swallowed_witness :
    (∀ p : GitHubProject,
       (Except.ok none : Except TransportError (Option GitHubProject)) ≠ .ok (some p)) ∧
    ((getProject (.ok none) (.error ⟨"boom", none⟩)).1 = .ok none ∧
     (getRepositories [.ok none] [.error ⟨"oops", none⟩]).1 = .ok []) := by
  refine ⟨fun p hp => Option.noConfusion (Except.ok.inj hp), ?_⟩
  exact final_attempt_error_swallowed ⟨"boom", none⟩ (.ok none)
    (fun p hp => Option.noConfusion (Except.ok.inj hp))
    [.ok none] [.error ⟨"oops", none⟩] (by decide) (by decide)

/-- C5: when the organization-scope listing completes without error and is
non-empty, neither `getProjects` nor `getRepositories` consults the user
scope; conversely the user scope is consulted only when the organization scope
failed to yield a non-empty list. -/
theorem org_nonempty_skips_user (orgP userP : List (PageResponse GitHubProject))
    (orgR userR : List (PageResponse Repo)) :
    (((collectLoop orgP ([] : List GitHubProject)).err = none ∧
      (collectLoop orgP ([] : List GitHubProject)).acc ≠ []) →
       (getProjects orgP userP).2 = false) ∧
    (((collectLoop orgR ([] : List Repo)).err = none ∧
      (collectLoop orgR ([] : List Repo)).acc ≠ []) →
       (getRepositories orgR userR).2 = false) ∧
    ((getProjects orgP userP).2 = true →
       (collectLoop orgP ([] : List GitHubProject)).acc = []) ∧
    ((getRepositories orgR userR).2 = true →
       ¬((collectLoop orgR ([] : List Repo)).err = none ∧
         (collectLoop orgR ([] : List Repo)).acc ≠ [])) := by
  refine ⟨?_, ?_, ?_, ?_⟩
  · intro ⟨_, hne⟩
    simp only [getProjects]
    rw [if_neg (by simpa [List.isEmpty_iff] using hne)]
  · intro ⟨herr, hne⟩
    simp only [getRepositories]
    rw [if_pos ⟨herr, List.length_pos.mpr hne⟩]
  · intro h
    by_contra hne
    simp only [getProjects] at h
    rw [if_neg (by simpa [List.isEmpty_iff] using hne)] at h
    exact Bool.false_ne_true h
  · intro h ⟨herr, hne⟩
    simp only [getRepositories] at h
    rw [if_pos ⟨herr, List.length_pos.mpr hne⟩] at h
    exact Bool.false_ne_true h

/-- Witness for C5: concrete non-empty organization listings leave the user
scope unqueried. -/
theorem org_nonempty_skips_user_witness :
    (getProjects [.ok (some ⟨[⟨"P1", 1, "One", "u1", none⟩], false, none⟩)]
       [.ok (some ⟨[⟨"P2", 2, "Two", "u2", none⟩], false, none⟩)]).2 = false ∧
    (getRepositories [.ok (some ⟨[⟨"r", "o/r", "R1"⟩], false, none⟩)]
       [.ok (some ⟨[⟨"s", "o/s", "R2"⟩], false, none⟩)]).2 = false := by
  constructor
  · exact (org_nonempty_skips_user
      [.ok (some ⟨[⟨"P1", 1, "One", "u1", none⟩], false, none⟩)]
      [.ok (some ⟨[⟨"P2", 2, "Two", "u2", none⟩], false, none⟩)] [] []).1 (by decide)
  · exact (org_nonempty_skips_user [] []
      [.ok (some ⟨[⟨"r", "o/r", "R1"⟩], false, none⟩)]
      [.ok (some ⟨[⟨"s", "o/s", "R2"⟩], false, none⟩)]).2.1 (by decide)

/-- C8: the status of every normalized item (`getProjectItems`,
`getProjectItem`, `listProjectIssues`) is the `name` of the first field-value
entry whose owning field name equals the configured status-field name under
case-sensitive string equality; with no such entry the status is `none`
(explicit absence), never an empty string and never an error. -/
theorem status_field_selection (cfg : String) (fvs : List RawFieldValue) :
    ((∀ fv ∈ fvs, fv.fieldName ≠ some cfg) → statusOf fvs cfg = none) ∧
    (∀ l₁ fv l₂, fvs = l₁ ++ fv :: l₂ → fv.fieldName = some cfg →
       (∀ fv2 ∈ l₁, fv2.fieldName ≠ some cfg) →
       statusOf fvs cfg = fv.name) ∧
    (∀ (node : RawItemNode) (cfg2 : String),
       (normalizeItemsNode node cfg2).status = statusOf node.fieldValues cfg2) ∧
    (∀ (node : RawDetailsNode) (cfg2 : String),
       (normalizeDetailsNode node cfg2).status = statusOf node.fieldValues cfg2) ∧
    (∀ (iss : RawSearchIssue) (link : RawProjectItemLink) (cfg2 : String),
       (mkProjectIssueItem iss link cfg2).status = statusOf link.fieldValues cfg2) := by
  refine ⟨?_, ?_, fun _ _ => rfl, fun _ _ => rfl, fun _ _ _ => rfl⟩
  · intro h
    unfold statusOf
    rw [List.find?_eq_none.mpr (fun fv hfv => by simp [h fv hfv])]
    rfl
  · intro l₁ fv l₂ hsplit hfv hl₁
    unfold statusOf
    rw [hsplit, find?_first_of_split _ l₁ fv l₂ (by simp [hfv])
      (fun q hq => by simp [hl₁ q hq])]
    rfl

/-- Witness for C8: a `"Priority"` entry is skipped, the `"Status"` entry is
taken; a lowercase `"status"` field is never picked up. -/
theorem status_field_selection_witness :
    statusOf [⟨some "High", some "Priority"⟩, ⟨some "Done", some "Status"⟩] "Status"
      = some "Done" ∧
    statusOf [⟨some "High", some "Priority"⟩, ⟨some "x", some "status"⟩] "Status"
      = none := by
  constructor
  · exact (status_field_selection "Status" _).2.1
      [⟨some "High", some "Priority"⟩] ⟨some "Done", some "Status"⟩ [] rfl rfl (by decide)
  · exact (status_field_selection "Status" _).1 (by decide)

/-- C3 counterexample: an item with content entirely absent normalized by
`getProjectItems` gets title `"No Title"`, not the `"REDACTED"` the claim
requires of both normalization paths. -/
theorem items_redaction_counterexample :
    (normalizeItemsNode ⟨some "PVTI_1", none, []⟩ "Status").content.title = "No Title" ∧
    "No Title" ≠ "REDACTED" :=
  ⟨rfl, by decide⟩

/-- C3 amended: only `getProjectItem` distinguishes the two cases — absent
content yields `"REDACTED"`, present content with a blank or missing title
yields `"No Title"`, a non-blank title passes through; `getProjectItems` maps
both a blank title and entirely absent content to `"No Title"`. -/
theorem title_placeholders (cfg : String) :
    (∀ node : RawDetailsNode, node.content = none →
       (normalizeDetailsNode node cfg).content.title = "REDACTED") ∧
    (∀ (node : RawDetailsNode) (c : RawContent), node.content = some c →
       c.typename ≠ "" → (c.title = none ∨ c.title = some "") →
       (normalizeDetailsNode node cfg).content.title = "No Title") ∧
    (∀ node : RawItemNode, node.content = none →
       (normalizeItemsNode node cfg).content.title = "No Title") ∧
    (∀ (node : RawItemNode) (c : RawContent), node.content = some c →
       (c.title = none ∨ c.title = some "") →
       (normalizeItemsNode node cfg).content.title = "No Title") ∧
    (∀ (node : RawDetailsNode) (c : RawContent) (t : String), node.content = some c →
       c.title = some t → t ≠ "" →
       (normalizeDetailsNode node cfg).content.title = t) := by
  refine ⟨?_, ?_, ?_, ?_, ?_⟩
  · intro node hc
    simp [normalizeDetailsNode, hc, jsOrStr, jsTruthy]
  · intro node c hc htn ht
    rcases ht with ht | ht <;>
      simp [normalizeDetailsNode, hc, ht, jsOrStr, jsTruthy, htn]
  · intro node hc
    simp [normalizeItemsNode, hc, jsOrStr]
  · intro node c hc ht
    rcases ht with ht | ht <;> simp [normalizeItemsNode, hc, ht, jsOrStr]
  · intro node c t hc ht htne
    simp [normalizeDetailsNode, hc, ht, jsOrStr, htne]

/-- Witness for the amended C3 at concrete redacted and draft items. -/
theorem title_placeholders_witness :
    (normalizeDetailsNode ⟨"ProjectV2Item", "PVTI_2", none, none, none, []⟩
       "Status").content.title = "REDACTED" ∧
    (normalizeDetailsNode ⟨"ProjectV2Item", "PVTI_3", none, none,
       some ⟨"DraftIssue", some "D1", none, some "", none, none⟩, []⟩
       "Status").content.title = "No Title" ∧
    (normalizeItemsNode ⟨some "PVTI_4", none, []⟩ "Status").content.title
      = "No Title" := by
  refine ⟨(title_placeholders "Status").1 _ rfl,
    (title_placeholders "Status").2.1 _ _ rfl (by decide) (Or.inr rfl),
    (title_placeholders "Status").2.2.1 _ rfl⟩

/-- C2 counterexample: when page 2 of the organization scope raises,
`getProjects` returns the non-empty partial result accumulated from page 1
instead of discarding it. -/
theorem page_error_keeps_earlier_pages_counterexample :
    (getProjects [.ok (some ⟨[⟨"P1", 1, "One", "u1", none⟩], true, some "c"⟩),
        .error ⟨"boom", none⟩] []).1 = [⟨"P1", 1, "One", "u1", none⟩] ∧
    ([⟨"P1", 1, "One", "u1", none⟩] : List GitHubProject) ≠ [] :=
  ⟨rfl, by simp⟩

/-- C2 amended: the bounded collectors (`listIssues`, `listIssueComments`,
`listProjectIssues`) and `getProjectItems` abort on a page error, propagating
it with no partial result; `getRepositories` discards partial pages (an
organization-scope error falls through to the user scope, a user-scope error
yields `[]`); but `getProjects` swallows page errors and returns the partial
list accumulated before the error whenever it is non-empty. -/
theorem pagination_error_propagation :
    (∀ {ρ α : Type} (f : ρ → α) (e : TransportError) (rest : List (PageResponse ρ))
       (acc : List α) (limit : Nat), acc.length < limit →
         boundedLoop f (.error e :: rest) acc limit = (.error e, 1)) ∧
    (∀ {ρ α : Type} (f : ρ → α) (e : TransportError)
       (rest : List (Except TransportError (Option (CommentsNode ρ))))
       (acc : List α) (limit : Nat), acc.length < limit →
         commentsLoop f (.error e :: rest) acc limit = (.error e, 1)) ∧
    (∀ (pid cfg : String) (e : TransportError) (rest : List (PageResponse SearchNode))
       (acc : List GitHubProjectIssueItem) (limit : Nat), acc.length < limit →
         listProjectIssuesLoop pid cfg (.error e :: rest) acc limit = (.error e, 1)) ∧
    (∀ (resps : List (PageResponse RawItemNode)) (cfg : String) (e : TransportError),
       (collectLoop resps ([] : List RawItemNode)).err = some e →
         getProjectItems resps cfg = .error e) ∧
    (∀ (orgR userR : List (PageResponse GitHubProject)),
       (collectLoop orgR ([] : List GitHubProject)).acc ≠ [] →
         getProjects orgR userR = ((collectLoop orgR []).acc, false)) ∧
    (∀ (orgR userR : List (PageResponse Repo)) (e : TransportError),
       (collectLoop orgR ([] : List Repo)).err = some e →
         (getRepositories orgR userR).1
           = (match (collectLoop userR ([] : List Repo)).err with
              | some _ => .ok []
              | none => .ok (collectLoop userR ([] : List Repo)).acc)) := by
  refine ⟨?_, ?_, ?_, ?_, ?_, ?_⟩
  · intro ρ α f e rest acc limit h
    simp [boundedLoop, h]
  · intro ρ α f e rest acc limit h
    simp [commentsLoop, h]
  · intro pid cfg e rest acc limit h
    simp [listProjectIssuesLoop, h]
  · intro resps cfg e h
    simp [getProjectItems, h]
  · intro orgR userR h
    simp only [getProjects]
    rw [if_neg (by simpa [List.isEmpty_iff] using h)]
  · intro orgR userR e h
    simp only [getRepositories]
    rw [if_neg (by simp [h])]
    cases hu : (collectLoop userR ([] : List Repo)).err <;> simp [hu]

/-- Witness for the amended C2 at concrete erroring pages. -/
theorem pagination_error_propagation_witness :
    boundedLoop normIssueNode [.error ⟨"boom", none⟩] [] 1
      = (.error ⟨"boom", none⟩, 1) ∧
    (getRepositories [.error ⟨"boom", none⟩]
      [.ok (some ⟨[⟨"r", "o/r", "R1"⟩], false, none⟩)]).1
      = .ok [⟨"r", "o/r", "R1"⟩] := by
  constructor
  · exact pagination_error_propagation.1 normIssueNode ⟨"boom", none⟩ [] [] 1 (by decide)
  · exact pagination_error_propagation.2.2.2.2.2 [.error ⟨"boom", none⟩]
      [.ok (some ⟨[⟨"r", "o/r", "R1"⟩], false, none⟩)] ⟨"boom", none⟩ (by decide)

/-- Value computed by the bounded loop over a well-formed page sequence:
the first `limit - acc.length` remaining nodes, appended in order. -/
theorem boundedLoop_pages_val {ρ α : Type} (f : ρ → α) (pages : List (List ρ))
    (acc : List α) (limit : Nat) :
    (boundedLoop f (pagesToResponses pages) acc limit).1
      = .ok (acc ++ (pages.flatten.take (limit - acc.length)).map f) := by
  induction pages generalizing acc with
  | nil => simp [pagesToResponses, boundedLoop]
  | cons pg rest ih =>
    cases rest with
    | nil =>
      by_cases h : acc.length < limit
      · simp [pagesToResponses, boundedLoop, h, jsTruthy, List.map_take]
      · have h0 : limit - acc.length = 0 := Nat.sub_eq_zero_of_le (Nat.le_of_not_lt h)
        simp [pagesToResponses, boundedLoop, h, h0]
    | cons pg2 rest2 =>
      by_cases h : acc.length < limit
      · have hstep :
            boundedLoop f (pagesToResponses (pg :: pg2 :: rest2)) acc limit
              = ((boundedLoop f (pagesToResponses (pg2 :: rest2))
                   (acc ++ (pg.take (limit - acc.length)).map f) limit).1,
                 (boundedLoop f (pagesToResponses (pg2 :: rest2))
                   (acc ++ (pg.take (limit - acc.length)).map f) limit).2 + 1) := by
          simp [pagesToResponses, boundedLoop, h, jsTruthy]
        rw [hstep]
        simp only [ih]
        have hlen : (acc ++ (pg.take (limit - acc.length)).map f).length
            = acc.length + min (limit - acc.length) pg.length := by
          simp [List.length_take]
        rw [hlen]
        have harith : limit - (acc.length + min (limit - acc.length) pg.length)
            = (limit - acc.length) - pg.length := by omega
        rw [harith]
        simp [List.flatten, List.take_append_eq_append_take, List.map_take]
      · have h0 : limit - acc.length = 0 := Nat.sub_eq_zero_of_le (Nat.le_of_not_lt h)
        simp [pagesToResponses, boundedLoop, h, h0]

/-- Unfolding of `pagesToReach` on a cons. -/
theorem pagesToReach_cons {ρ : Type} (pg : List ρ) (rest : List (List ρ)) (n : Nat) :
    pagesToReach (pg :: rest) n
      = if n ≤ pg.length then 1 else 1 + pagesToReach rest (n - pg.length) := rfl

/-- Query count of the bounded loop: exactly the pages up to the one on which
the limit is reached. -/
theorem boundedLoop_pages_count {ρ α : Type} (f : ρ → α) (pages : List (List ρ))
    (acc : List α) (limit : Nat) (h : acc.length < limit) :
    (boundedLoop f (pagesToResponses pages) acc limit).2
      = pagesToReach pages (limit - acc.length) := by
  induction pages generalizing acc with
  | nil => simp [pagesToResponses, boundedLoop, pagesToReach]
  | cons pg rest ih =>
    cases rest with
    | nil =>
      have h1 : (boundedLoop f (pagesToResponses [pg]) acc limit).2 = 1 := by
        simp [pagesToResponses, boundedLoop, h, jsTruthy]
      rw [h1, pagesToReach_cons]
      split
      · rfl
      · simp [pagesToReach]
    | cons pg2 rest2 =>
      have hstep :
          (boundedLoop f (pagesToResponses (pg :: pg2 :: rest2)) acc limit).2
            = (boundedLoop f (pagesToResponses (pg2 :: rest2))
                (acc ++ (pg.take (limit - acc.length)).map f) limit).2 + 1 := by
        simp [pagesToResponses, boundedLoop, h, jsTruthy]
      have hlen : (acc ++ (pg.take (limit - acc.length)).map f).length
          = acc.length + min (limit - acc.length) pg.length := by
        simp [List.length_take]
      rw [hstep, pagesToReach_cons]
      by_cases hcase : limit - acc.length ≤ pg.length
      · rw [if_pos hcase]
        have hfull : ¬(acc.length + min (limit - acc.length) pg.length < limit) := by
          omega
        have hz : (boundedLoop f (pagesToResponses (pg2 :: rest2))
            (acc ++ (pg.take (limit - acc.length)).map f) limit).2 = 0 := by
          cases rest2 <;> simp [pagesToResponses, boundedLoop, hfull]
        omega
      · rw [if_neg hcase]
        have hroom : (acc ++ (pg.take (limit - acc.length)).map f).length < limit := by
          omega
        rw [ih _ hroom, hlen]
        have harith : limit - (acc.length + min (limit - acc.length) pg.length)
            = (limit - acc.length) - pg.length := by omega
        rw [harith]
        omega

/-- The comments loop behaves as the plain bounded loop when every response
carries an Issue-typed node. -/
theorem commentsLoop_asIssueNode {ρ α : Type} (f : ρ → α)
    (responses : List (PageResponse ρ)) (acc : List α) (limit : Nat) :
    commentsLoop f (responses.map asIssueNode) acc limit
      = boundedLoop f responses acc limit := by
  induction responses generalizing acc with
  | nil => rfl
  | cons r rest ih =>
    cases r with
    | error e => simp [asIssueNode, commentsLoop, boundedLoop]
    | ok pg =>
      by_cases h : acc.length < limit
      · simp [asIssueNode, commentsLoop, boundedLoop, h, ih]
      · simp [asIssueNode, commentsLoop, boundedLoop, h]

/-- `filterMap` preserves length when every element maps to `some`. -/
theorem length_filterMap_of_all_isSome {α β : Type} (f : α → Option β) (l : List α)
    (h : ∀ x ∈ l, (f x).isSome) : (l.filterMap f).length = l.length := by
  induction l with
  | nil => rfl
  | cons x rest ih =>
    obtain ⟨y, hy⟩ := Option.isSome_iff_exists.mp (h x (by simp))
    simp [List.filterMap_cons, hy, ih (fun z hz => h z (by simp [hz]))]

/-- When every node is pushed, the per-node loop of `listProjectIssues`
appends the records of the first `limit - acc.length` nodes, in order. -/
theorem searchPushNodes_all_accepted (pid cfg : String) (nodes : List SearchNode)
    (acc : List GitHubProjectIssueItem) (limit : Nat) (hlt : acc.length < limit)
    (hn : ∀ node ∈ nodes, (searchRecord? pid cfg node).isSome) :
    searchPushNodes pid cfg nodes acc limit
      = acc ++ (nodes.filterMap (searchRecord? pid cfg)).take (limit - acc.length) := by
  induction nodes generalizing acc with
  | nil => simp [searchPushNodes]
  | cons node rest ih =>
    have hs := hn node (by simp)
    cases node with
    | other t => simp [ searchRecord?] at hs
    | issue iss =>
      cases hfind : iss.projectItems.find? (fun link => link.projectId == some pid) with
      | none => simp [ searchRecord?, hfind] at hs
      | some link =>
        have hrec : searchRecord? pid cfg (.issue iss)
            = some (mkProjectIssueItem iss link cfg) := by
          simp [ searchRecord?, hfind]
        obtain ⟨k, hk⟩ : ∃ k, limit - acc.length = k + 1 :=
          ⟨limit - acc.length - 1, by omega⟩
        simp only [searchPushNodes, hfind, List.filterMap_cons, hrec, hk,
          List.take_succ_cons]
        by_cases hstop : limit ≤ (acc ++ [mkProjectIssueItem iss link cfg]).length
        · rw [if_pos hstop]
          have hk0 : k = 0 := by
            simp only [List.length_append, List.length_cons, List.length_nil] at hstop
            omega
          simp [hk0]
        · rw [if_neg hstop]
          have hlt2 : (acc ++ [mkProjectIssueItem iss link cfg]).length < limit :=
            Nat.lt_of_not_le hstop
          rw [ih _ hlt2 (fun z hz => hn z (by simp [hz]))]
          have hk2 : limit - (acc ++ [mkProjectIssueItem iss link cfg]).length = k := by
            simp only [List.length_append, List.length_cons, List.length_nil]
            omega
          rw [hk2]
          simp

/-- Value and query count of the bounded search loop of `listProjectIssues`
over well-formed page sequences in which every node is pushed. -/
theorem listProjectIssuesLoop_pages (pid cfg : String) (pages : List (List SearchNode))
    (acc : List GitHubProjectIssueItem) (limit : Nat)
    (hacc : ∀ pg ∈ pages, ∀ node ∈ pg, (searchRecord? pid cfg node).isSome) :
    (listProjectIssuesLoop pid cfg (pagesToResponses pages) acc limit).1
      = .ok (acc ++ (pages.flatten.filterMap (searchRecord? pid cfg)).take
          (limit - acc.length)) ∧
    (acc.length < limit →
       (listProjectIssuesLoop pid cfg (pagesToResponses pages) acc limit).2
         = pagesToReach pages (limit - acc.length)) := by
  induction pages generalizing acc with
  | nil =>
    constructor
    · simp [pagesToResponses, listProjectIssuesLoop]
    · intro h
      simp [pagesToResponses, listProjectIssuesLoop, pagesToReach]
  | cons pg rest ih =>
    have hpg : ∀ node ∈ pg, (searchRecord? pid cfg node).isSome :=
      hacc pg (by simp)
    have hfl : (pg.filterMap (searchRecord? pid cfg)).length = pg.length :=
      length_filterMap_of_all_isSome _ pg hpg
    cases rest with
    | nil =>
      by_cases hlt : acc.length < limit
      · have hpush := searchPushNodes_all_accepted pid cfg pg acc limit hlt hpg
        constructor
        · simp [pagesToResponses, listProjectIssuesLoop, hlt, jsTruthy, hpush]
        · intro _
          have h2 : (listProjectIssuesLoop pid cfg (pagesToResponses [pg]) acc limit).2
              = 1 := by
            simp [pagesToResponses, listProjectIssuesLoop, hlt, jsTruthy]
          rw [h2, pagesToReach_cons]
          split
          · rfl
          · simp [pagesToReach]
      · have h0 : limit - acc.length = 0 := Nat.sub_eq_zero_of_le (Nat.le_of_not_lt hlt)
        constructor
        · simp [pagesToResponses, listProjectIssuesLoop, hlt, h0]
        · intro h
          exact absurd h hlt
    | cons pg2 rest2 =>
      by_cases hlt : acc.length < limit
      · have hpush := searchPushNodes_all_accepted pid cfg pg acc limit hlt hpg
        have hrest : ∀ q ∈ (pg2 :: rest2), ∀ node ∈ q,
            (searchRecord? pid cfg node).isSome :=
          fun q hq => hacc q (by simp [hq])
        have hstep :
            listProjectIssuesLoop pid cfg (pagesToResponses (pg :: pg2 :: rest2)) acc limit
              = ((listProjectIssuesLoop pid cfg (pagesToResponses (pg2 :: rest2))
                   (searchPushNodes pid cfg pg acc limit) limit).1,
                 (listProjectIssuesLoop pid cfg (pagesToResponses (pg2 :: rest2))
                   (searchPushNodes pid cfg pg acc limit) limit).2 + 1) := by
          simp [pagesToResponses, listProjectIssuesLoop, hlt, jsTruthy]
        have hlen : (acc ++ (pg.filterMap (searchRecord? pid cfg)).take
            (limit - acc.length)).length
            = acc.length + min (limit - acc.length) pg.length := by
          simp [List.length_take, hfl]
        have harith : limit - (acc.length + min (limit - acc.length) pg.length)
            = (limit - acc.length) - pg.length := by omega
        constructor
        · rw [hstep]
          simp only [hpush]
          rw [(ih _ hrest).1, hlen, harith]
          simp [List.take_append_eq_append_take, hfl]
        · intro _
          rw [hstep]
          simp only [hpush]
          by_cases hcase : limit - acc.length ≤ pg.length
          · have hfull : ¬(acc.length + min (limit - acc.length)
                (pg.filterMap (searchRecord? pid cfg)).length < limit) := by
              rw [hfl]; omega
            have hz : (listProjectIssuesLoop pid cfg (pagesToResponses (pg2 :: rest2))
                (acc ++ (pg.filterMap (searchRecord? pid cfg)).take
                  (limit - acc.length)) limit).2 = 0 := by
              cases rest2 <;>
                simp [pagesToResponses, listProjectIssuesLoop, hfull]
            rw [hz, pagesToReach_cons, if_pos hcase]
          · have hroom : (acc ++ (pg.filterMap (searchRecord? pid cfg)).take
                (limit - acc.length)).length < limit := by
              rw [hlen]; omega
            rw [(ih _ hrest).2 hroom, hlen, harith]
            conv_rhs => rw [pagesToReach_cons]
            rw [if_neg hcase]
            omega
      · have h0 : limit - acc.length = 0 := Nat.sub_eq_zero_of_le (Nat.le_of_not_lt hlt)
        constructor
        · simp [pagesToResponses, listProjectIssuesLoop, hlt, h0]
        · intro h
          exact absurd h hlt

/-- C4: over well-formed page sequences the three bounded collectors
(`listIssues`, `listIssueComments`, `listProjectIssues`) return their nodes in
original page-and-within-page order truncated at the limit, and execute
queries exactly up to the page on which the limit is reached; with no limit
shortfall all nodes are returned.  For `listProjectIssues` the collected nodes
are the records of its per-node decision. -/
theorem bounded_collector_limit (pagesI : List (List RawIssueNode))
    (pagesC : List (List RawCommentNode)) (limit : Nat) (hl : 1 ≤ limit)
    (pid cfg : String) (pagesS : List (List SearchNode))
    (hacc : ∀ pg ∈ pagesS, ∀ node ∈ pg, (searchRecord? pid cfg node).isSome) :
    (pagesI.flatten.length ≤ limit →
       (boundedLoop normIssueNode (pagesToResponses pagesI) [] limit).1
         = .ok (pagesI.flatten.map normIssueNode)) ∧
    (boundedLoop normIssueNode (pagesToResponses pagesI) [] limit
       = (.ok ((pagesI.flatten.take limit).map normIssueNode),
          pagesToReach pagesI limit)) ∧
    (listIssues (pagesToResponses pagesI) (some (limit : Int))
       = boundedLoop normIssueNode (pagesToResponses pagesI) [] limit) ∧
    (commentsLoop normCommentNode ((pagesToResponses pagesC).map asIssueNode) [] limit
       = (.ok ((pagesC.flatten.take limit).map normCommentNode),
          pagesToReach pagesC limit)) ∧
    (listIssueComments ((pagesToResponses pagesC).map asIssueNode) (some (limit : Int))
       = commentsLoop normCommentNode ((pagesToResponses pagesC).map asIssueNode) [] limit) ∧
    (pagesS.flatten.length ≤ limit →
       (listProjectIssuesLoop pid cfg (pagesToResponses pagesS) [] limit).1
         = .ok (pagesS.flatten.filterMap (searchRecord? pid cfg))) ∧
    (listProjectIssuesLoop pid cfg (pagesToResponses pagesS) [] limit
       = (.ok ((pagesS.flatten.filterMap (searchRecord? pid cfg)).take limit),
          pagesToReach pagesS limit)) ∧
    (listProjectIssues pid cfg (pagesToResponses pagesS) (some (limit : Int))
       = listProjectIssuesLoop pid cfg (pagesToResponses pagesS) [] limit) := by
  have hnorm : normLimit (some (limit : Int)) = limit := by
    simp only [normLimit]
    omega
  have hva : ∀ (ρ α : Type) (f : ρ → α) (pages : List (List ρ)),
      boundedLoop f (pagesToResponses pages) [] limit
        = (.ok ((pages.flatten.take limit).map f), pagesToReach pages limit) := by
    intro ρ α f pages
    refine Prod.ext ?_ ?_
    · rw [boundedLoop_pages_val]
      simp
    · rw [boundedLoop_pages_count f pages [] limit (by simpa using hl)]
      simp
  have hS := listProjectIssuesLoop_pages pid cfg pagesS [] limit hacc
  have hflat : ∀ node ∈ pagesS.flatten, (searchRecord? pid cfg node).isSome := by
    intro node hnode
    rcases List.mem_flatten.mp hnode with ⟨pg, hpg, hn⟩
    exact hacc pg hpg node hn
  refine ⟨?_, hva _ _ _ _, ?_, ?_, ?_, ?_, ?_, ?_⟩
  · intro hle
    rw [boundedLoop_pages_val]
    simp [List.take_of_length_le hle]
  · simp [listIssues, hnorm]
  · rw [commentsLoop_asIssueNode]
    exact hva _ _ _ _
  · simp [listIssueComments, hnorm, commentsLoop_asIssueNode]
  · intro hle
    rw [hS.1]
    have hlef : (pagesS.flatten.filterMap (searchRecord? pid cfg)).length ≤ limit := by
      rw [length_filterMap_of_all_isSome _ _ hflat]
      exact hle
    simp only [List.nil_append, List.length_nil, Nat.sub_zero]
    rw [List.take_of_length_le hlef]
  · refine Prod.ext ?_ ?_
    · rw [hS.1]
      simp
    · rw [hS.2 (by simpa using hl)]
      simp
  · simp [listProjectIssues, hnorm]

/-- Witness for C4: three pages of two items with limit 3 return the first
three items using exactly 2 queries (page 3 is never fetched); with limit 6
all items are returned. -/
theorem bounded_collector_limit_witness :
    (boundedLoop normIssueNode
        (pagesToResponses [[wIss 1, wIss 2], [wIss 3, wIss 4], [wIss 5, wIss 6]]) [] 3
      = (.ok (([[wIss 1, wIss 2], [wIss 3, wIss 4], [wIss 5, wIss 6]] :
            List (List RawIssueNode)).flatten.take 3 |>.map normIssueNode),
         pagesToReach [[wIss 1, wIss 2], [wIss 3, wIss 4], [wIss 5, wIss 6]] 3)) ∧
    pagesToReach [[wIss 1, wIss 2], [wIss 3, wIss 4], [wIss 5, wIss 6]] 3 = 2 ∧
    (boundedLoop normIssueNode
        (pagesToResponses [[wIss 1, wIss 2], [wIss 3, wIss 4], [wIss 5, wIss 6]]) [] 6).1
      = .ok (([[wIss 1, wIss 2], [wIss 3, wIss 4], [wIss 5, wIss 6]] :
          List (List RawIssueNode)).flatten.map normIssueNode) ∧
    (listProjectIssuesLoop "PID" "Status" (pagesToResponses wSPages) [] 3
      = (.ok ((wSPages.flatten.filterMap (searchRecord? "PID" "Status")).take 3),
         pagesToReach wSPages 3)) ∧
    pagesToReach wSPages 3 = 2 ∧
    (listProjectIssuesLoop "PID" "Status" (pagesToResponses wSPages) [] 6).1
      = .ok (wSPages.flatten.filterMap (searchRecord? "PID" "Status")) := by
  refine ⟨(bounded_collector_limit [[wIss 1, wIss 2], [wIss 3, wIss 4], [wIss 5, wIss 6]]
      [] 3 (by decide) "PID" "Status" wSPages (by decide)).2.1, by decide, ?_, ?_, by decide, ?_⟩
  · exact (bounded_collector_limit [[wIss 1, wIss 2], [wIss 3, wIss 4], [wIss 5, wIss 6]]
      [] 6 (by decide) "PID" "Status" wSPages (by decide)).1 (by decide)
  · exact (bounded_collector_limit [] [] 3 (by decide) "PID" "Status" wSPages
      (by decide)).2.2.2.2.2.2.1
  · exact (bounded_collector_limit [] [] 6 (by decide) "PID" "Status" wSPages
      (by decide)).2.2.2.2.2.1 (by decide)

/-- Every record produced by the per-node push loop of `listProjectIssues` was
already accumulated or stems from an Issue node with a link to the target
project. -/
theorem searchPushNodes_mem (pid cfg : String) (nodes : List SearchNode)
    (acc : List GitHubProjectIssueItem) (limit : Nat) (r : GitHubProjectIssueItem)
    (hr : r ∈ searchPushNodes pid cfg nodes acc limit) :
    r ∈ acc ∨ ∃ iss link, SearchNode.issue iss ∈ nodes ∧ link ∈ iss.projectItems ∧
      link.projectId = some pid ∧ r = mkProjectIssueItem iss link cfg := by
  induction nodes generalizing acc with
  | nil =>
    exact Or.inl (by simpa [searchPushNodes] using hr)
  | cons node rest ih =>
    cases node with
    | other t =>
      rcases ih acc (by simpa [searchPushNodes] using hr) with h | ⟨iss, link, hm, hl, hp, he⟩
      · exact Or.inl h
      · exact Or.inr ⟨iss, link, by simp [hm], hl, hp, he⟩
    | issue iss =>
      cases hfind : iss.projectItems.find? (fun link => link.projectId == some pid) with
      | none =>
        simp only [searchPushNodes, hfind] at hr
        rcases ih acc hr with h | ⟨iss2, link, hm, hl, hp, he⟩
        · exact Or.inl h
        · exact Or.inr ⟨iss2, link, by simp [hm], hl, hp, he⟩
      | some link =>
        simp only [searchPushNodes, hfind] at hr
        have hlink : link ∈ iss.projectItems := List.mem_of_find?_eq_some hfind
        have hpid : link.projectId = some pid := by
          simpa using List.find?_some hfind
        by_cases hstop : limit ≤ (acc ++ [mkProjectIssueItem iss link cfg]).length
        · rw [if_pos hstop] at hr
          rcases List.mem_append.mp hr with h | h
          · exact Or.inl h
          · exact Or.inr ⟨iss, link, by simp, hlink, hpid,
              by simpa using h⟩
        · rw [if_neg hstop] at hr
          rcases ih _ hr with h | ⟨iss2, link2, hm, hl, hp, he⟩
          · rcases List.mem_append.mp h with h2 | h2
            · exact Or.inl h2
            · exact Or.inr ⟨iss, link, by simp, hlink, hpid, by simpa using h2⟩
          · exact Or.inr ⟨iss2, link2, by simp [hm], hl, hp, he⟩

/-- Every record returned by the search loop of `listProjectIssues` was already
accumulated or stems from an Issue node, on some successfully decoded page,
with a link to the target project. -/
theorem listProjectIssuesLoop_mem (pid cfg : String)
    (responses : List (PageResponse SearchNode))
    (acc : List GitHubProjectIssueItem) (limit : Nat)
    (res : List GitHubProjectIssueItem)
    (hres : (listProjectIssuesLoop pid cfg responses acc limit).1 = .ok res)
    (r : GitHubProjectIssueItem) (hr : r ∈ res) :
    r ∈ acc ∨ ∃ iss link pg, Except.ok (some pg) ∈ responses ∧
      SearchNode.issue iss ∈ pg.nodes ∧ link ∈ iss.projectItems ∧
      link.projectId = some pid ∧ r = mkProjectIssueItem iss link cfg := by
  induction responses generalizing acc with
  | nil =>
    rw [listProjectIssuesLoop] at hres
    obtain rfl : acc = res := by simpa using hres
    exact Or.inl hr
  | cons resp rest ih =>
    simp only [listProjectIssuesLoop] at hres
    by_cases h : acc.length < limit
    · rw [if_pos h] at hres
      cases resp with
      | error e => simp at hres
      | ok connOpt =>
        cases connOpt with
        | none =>
          simp only [jsTruthy, searchPushNodes] at hres
          obtain rfl : acc = res := by simpa using hres
          exact Or.inl hr
        | some c =>
          simp only at hres
          by_cases hafter : jsTruthy (if c.hasNextPage = true then c.endCursor else none) = true
          · rw [if_pos hafter] at hres
            simp only at hres
            rcases ih _ hres with h2 | ⟨iss, link, pg, hpg, hm, hl, hp, he⟩
            · rcases searchPushNodes_mem pid cfg _ acc limit r h2 with
                h3 | ⟨iss, link, hm, hl, hp, he⟩
              · exact Or.inl h3
              · exact Or.inr ⟨iss, link, c, by simp, hm, hl, hp, he⟩
            · exact Or.inr ⟨iss, link, pg, by simp [hpg], hm, hl, hp, he⟩
          · rw [if_neg hafter] at hres
            obtain rfl : searchPushNodes pid cfg c.nodes acc limit = res := by
              simpa using hres
            rcases searchPushNodes_mem pid cfg _ acc limit r hr with
              h3 | ⟨iss, link, hm, hl, hp, he⟩
            · exact Or.inl h3
            · exact Or.inr ⟨iss, link, c, by simp, hm, hl, hp, he⟩
    · rw [if_neg h] at hres
      obtain rfl : acc = res := by simpa using hres
      exact Or.inl hr

/-- C7: every record output by `listProjectIssues` stems from an `Issue`
search node having a linked project-item whose project id equals the target
`projectId` (so draft notes and non-Issue nodes never appear); when no search
node qualifies the output is empty. -/
theorem search_output_linked_to_project (projectId cfg : String)
    (responses : List (PageResponse SearchNode)) (limitOpt : Option Int)
    (res : List GitHubProjectIssueItem)
    (hres : (listProjectIssues projectId cfg responses limitOpt).1 = .ok res) :
    (∀ r ∈ res, ∃ iss link pg, Except.ok (some pg) ∈ responses ∧
       SearchNode.issue iss ∈ pg.nodes ∧ link ∈ iss.projectItems ∧
       link.projectId = some projectId ∧ r = mkProjectIssueItem iss link cfg) ∧
    ((∀ (iss : RawSearchIssue) (pg : Page SearchNode),
        Except.ok (some pg) ∈ responses → SearchNode.issue iss ∈ pg.nodes →
        ∀ link ∈ iss.projectItems, link.projectId ≠ some projectId) → res = []) := by
  have hmem : ∀ r ∈ res, ∃ iss link pg, Except.ok (some pg) ∈ responses ∧
      SearchNode.issue iss ∈ pg.nodes ∧ link ∈ iss.projectItems ∧
      link.projectId = some projectId ∧ r = mkProjectIssueItem iss link cfg := by
    intro r hr
    rcases listProjectIssuesLoop_mem projectId cfg responses []
        (normLimit limitOpt) res hres r hr with h | h
    · simp at h
    · exact h
  refine ⟨hmem, ?_⟩
  intro hnone
  cases res with
  | nil => rfl
  | cons r res2 =>
    exfalso
    rcases hmem r (by simp) with ⟨iss, link, pg, hpg, hm, hl, hp, _⟩
    exact hnone iss pg hpg hm link hl hp

/-- Witness for C7: a page containing a PullRequest node, an issue linked to
another project and an issue linked to the target yields only the latter. -/
theorem search_output_linked_to_project_witness :
    (listProjectIssues "PID" "Status" wSearchResponses none).1
      = .ok [mkProjectIssueItem wIssB wLinkPid "Status"] ∧
    ∀ r ∈ [mkProjectIssueItem wIssB wLinkPid "Status"], ∃ iss link pg,
      Except.ok (some pg) ∈ wSearchResponses ∧ SearchNode.issue iss ∈ pg.nodes ∧
      link ∈ iss.projectItems ∧ link.projectId = some "PID" ∧
      r = mkProjectIssueItem iss link "Status" := by
  have h1 : (listProjectIssues "PID" "Status" wSearchResponses none).1
      = .ok [mkProjectIssueItem wIssB wLinkPid "Status"] := rfl
  exact ⟨h1, (search_output_linked_to_project "PID" "Status" wSearchResponses none
    [mkProjectIssueItem wIssB wLinkPid "Status"] h1).1⟩

end GhSkill
